import Mathlib

/-!
Shallow embedding of `src/pow.js`, a minimal proof-of-work miner/verifier.

The source file contains two near-identical variants of the engine:
the first hashes `data + timestamp + nonce` (timestamp captured once via
`Date.now()` before the search loop), the second hashes `data + nonce`.
Both share the same `hasLeadingZeroBits` difficulty predicate, byte for
byte identical between the variants, so it is embedded once.

Conventions of the embedding:
  - bytes are `Nat`s below 256, digests are `List Nat`;
  - `crypto.createHash("sha256")` is embedded as an executable SHA-256
    over byte lists (`sha256`), with strings fed through UTF-8 encoding
    exactly as Node's `hash.update(string)` does;
  - the unbounded `while (true)` search loop is embedded as the fueled
    recursion `mineGo`: the JS loop terminates exactly when some nonce
    satisfies the predicate, and `mineGo` returns `some` exactly when
    enough fuel is supplied to reach that nonce;
  - `Date.now()` is impure, so the captured timestamp is an explicit
    parameter of the miner;
  - `verifyBlock` reads a JSON file inside `try/catch`.  Its input is
    embedded as `Option JSBlock`: `none` is a read or parse failure
    (the `catch` path), `some b` a parsed object whose fields may each
    be absent (`undefined` after destructuring).  JavaScript coercions
    of `+` over strings, numbers and `undefined`, and the `TypeError`
    thrown by `hash.update` on a non-string, are embedded by `JVal`,
    `jadd` and `hashUpdate`.
-/

/-- Truncation to 32 bits: JS/crypto words are 32-bit. -/
def w32 (n : Nat) : Nat := n % 4294967296

/-- 32-bit right rotation (inputs below 2^32). -/
def rotr32 (x n : Nat) : Nat := w32 ((x >>> n) ||| (x <<< (32 - n)))

/-- The 64 SHA-256 round constants of FIPS 180-4, written in decimal. -/
def sha256K : List Nat :=
  [1116352408, 1899447441, 3049323471, 3921009573, 961987163,
   1508970993, 2453635748, 2870763221, 3624381080, 310598401,
   607225278, 1426881987, 1925078388, 2162078206, 2614888103,
   3248222580, 3835390401, 4022224774, 264347078, 604807628,
   770255983, 1249150122, 1555081692, 1996064986, 2554220882,
   2821834349, 2952996808, 3210313671, 3336571891, 3584528711,
   113926993, 338241895, 666307205, 773529912, 1294757372,
   1396182291, 1695183700, 1986661051, 2177026350, 2456956037,
   2730485921, 2820302411, 3259730800, 3345764771, 3516065817,
   3600352804, 4094571909, 275423344, 430227734, 506948616,
   659060556, 883997877, 958139571, 1322822218, 1537002063,
   1747873779, 1955562222, 2024104815, 2227730452, 2361852424,
   2428436474, 2756734187, 3204031479, 3329325298]

/-- The SHA-256 initial hash state of FIPS 180-4, written in decimal. -/
def sha256H0 : List Nat :=
  [1779033703, 3144134277, 1013904242, 2773480762,
   1359893119, 2600822924, 528734635, 1541459225]

/-- Big-endian 32-bit words from a byte list. -/
def toWords : List Nat → List Nat
  | b0 :: b1 :: b2 :: b3 :: rest =>
      ((b0 <<< 24) ||| (b1 <<< 16) ||| (b2 <<< 8) ||| b3) :: toWords rest
  | _ => []

/-- `k` big-endian bytes of `n`. -/
def beBytes : Nat → Nat → List Nat
  | 0, _ => []
  | k + 1, n => ((n >>> (8 * k)) &&& 255) :: beBytes k n

/-- One message-schedule extension word from the words computed so far. -/
def scheduleStep (w : List Nat) : Nat :=
  let i := w.length
  let w15 := w.getD (i - 15) 0
  let w2 := w.getD (i - 2) 0
  let s0 := rotr32 w15 7 ^^^ rotr32 w15 18 ^^^ (w15 >>> 3)
  let s1 := rotr32 w2 17 ^^^ rotr32 w2 19 ^^^ (w2 >>> 10)
  w32 (w.getD (i - 16) 0 + s0 + w.getD (i - 7) 0 + s1)

/-- Extend the message schedule by `k` words. -/
def scheduleGo (w : List Nat) : Nat → List Nat
  | 0 => w
  | k + 1 => scheduleGo (w ++ [scheduleStep w]) k

/-- The eight SHA-256 working variables. -/
structure Sha256St where
  a : Nat
  b : Nat
  c : Nat
  d : Nat
  e : Nat
  f : Nat
  g : Nat
  h : Nat
deriving Repr, DecidableEq

/-- One SHA-256 compression round. -/
def roundStep (st : Sha256St) (ki wi : Nat) : Sha256St :=
  let s1 := rotr32 st.e 6 ^^^ rotr32 st.e 11 ^^^ rotr32 st.e 25
  let ch := (st.e &&& st.f) ^^^ ((st.e ^^^ 0xffffffff) &&& st.g)
  let t1 := w32 (st.h + s1 + ch + ki + wi)
  let s0 := rotr32 st.a 2 ^^^ rotr32 st.a 13 ^^^ rotr32 st.a 22
  let maj := (st.a &&& st.b) ^^^ (st.a &&& st.c) ^^^ (st.b &&& st.c)
  let t2 := w32 (s0 + maj)
  ⟨w32 (t1 + t2), st.a, st.b, st.c, w32 (st.d + t1), st.e, st.f, st.g⟩

/-- Run the compression rounds over paired constants and schedule words. -/
def roundsGo : List Nat → List Nat → Sha256St → Sha256St
  | k :: ks, w :: ws, st => roundsGo ks ws (roundStep st k w)
  | _, _, st => st

/-- Compress one 64-byte block into the running hash state. -/
def compressBlock (hs : List Nat) (block : List Nat) : List Nat :=
  let w := scheduleGo (toWords block) 48
  let st0 : Sha256St :=
    ⟨hs.getD 0 0, hs.getD 1 0, hs.getD 2 0, hs.getD 3 0,
     hs.getD 4 0, hs.getD 5 0, hs.getD 6 0, hs.getD 7 0⟩
  let st := roundsGo sha256K w st0
  [w32 (hs.getD 0 0 + st.a), w32 (hs.getD 1 0 + st.b),
   w32 (hs.getD 2 0 + st.c), w32 (hs.getD 3 0 + st.d),
   w32 (hs.getD 4 0 + st.e), w32 (hs.getD 5 0 + st.f),
   w32 (hs.getD 6 0 + st.g), w32 (hs.getD 7 0 + st.h)]

/-- Fold `n` 64-byte blocks of `bytes` into the hash state. -/
def sha256Blocks (hs : List Nat) (bytes : List Nat) : Nat → List Nat
  | 0 => hs
  | n + 1 => sha256Blocks (compressBlock hs (bytes.take 64)) (bytes.drop 64) n

/-- SHA-256 padding: `0x80`, zeros to 56 mod 64, then the 64-bit bit length. -/
def padMessage (msg : List Nat) : List Nat :=
  let len := msg.length
  let zeros := (120 - (len + 1) % 64) % 64
  msg ++ [128] ++ List.replicate zeros 0 ++ beBytes 8 (8 * len)

/-- SHA-256 of a byte list, as the 32-byte digest. -/
def sha256 (msg : List Nat) : List Nat :=
  let padded := padMessage msg
  (sha256Blocks sha256H0 padded (padded.length / 64)).flatMap (beBytes 4)

/-- UTF-8 bytes of one character, as Node's `hash.update(string)` encodes. -/
def utf8Char (c : Char) : List Nat :=
  let n := c.toNat
  if n < 128 then [n]
  else if n < 2048 then
    [192 ||| (n >>> 6), 128 ||| (n &&& 63)]
  else if n < 65536 then
    [224 ||| (n >>> 12), 128 ||| ((n >>> 6) &&& 63), 128 ||| (n &&& 63)]
  else
    [240 ||| (n >>> 18), 128 ||| ((n >>> 12) &&& 63),
     128 ||| ((n >>> 6) &&& 63), 128 ||| (n &&& 63)]

/-- UTF-8 encoding of a string as a byte list. -/
def utf8Encode (s : String) : List Nat := s.data.flatMap utf8Char

/-- One lowercase hexadecimal digit, as `Buffer.toString("hex")` uses. -/
def hexDigit (n : Nat) : Char :=
  if n < 10 then Char.ofNat (48 + n) else Char.ofNat (87 + n)

/-- Lowercase hex encoding of a byte list: `hashBuffer.toString("hex")`. -/
def toHex (bytes : List Nat) : String :=
  String.mk (bytes.flatMap (fun b => [hexDigit (b >>> 4), hexDigit (b &&& 15)]))

/-- The bits of one byte, most significant first: the inner
`for (let bit = 7; bit >= 0; bit--)` of `hasLeadingZeroBits` visits
`(byte >> bit) & 1` in exactly this order. -/
def bitsOfByte (byte : Nat) : List Nat :=
  (List.range 8).reverse.map (fun bit => (byte >>> bit) &&& 1)

/-- The loop body of `hasLeadingZeroBits` over the flattened bit stream,
carrying the running `count`: a zero bit increments `count` and returns
`true` as soon as `count >= zeros`; the first one bit returns
`count >= zeros`; exhausting the buffer returns `count >= zeros`. -/
def hlzbGo (zeros : Nat) : List Nat → Nat → Bool
  | [], count => decide (zeros ≤ count)
  | bit :: rest, count =>
    if bit = 0 then
      if zeros ≤ count + 1 then true else hlzbGo zeros rest (count + 1)
    else decide (zeros ≤ count)

/-- `hasLeadingZeroBits(hashBuffer, zeros)` from `src/pow.js` (lines 17-31;
the second variant's copy at lines 110-124 is identical). -/
def hasLeadingZeroBits (hashBuffer : List Nat) (zeros : Nat) : Bool :=
  hlzbGo zeros (hashBuffer.flatMap bitsOfByte) 0

/-- Length of the initial run of zeros in a list. -/
def specZeroRun : List Nat → Nat
  | [] => 0
  | bit :: rest => if bit = 0 then specZeroRun rest + 1 else 0

/-- Modelled from the spec glossary: "the count of consecutive 0 bits
starting from the most significant bit of a byte sequence, before the
first 1 bit".  Used as the specification side of the refinement claim
about `hasLeadingZeroBits`. -/
def specLeadingZeroCount (digest : List Nat) : Nat :=
  specZeroRun (digest.flatMap bitsOfByte)

/-- The block record of the first variant (lines 41-57): hash, data,
nonce and the timestamp captured before the loop. -/
structure BlockRec where
  hash : String
  data : String
  nonce : Nat
  timestamp : Nat
deriving Repr, DecidableEq

/-- The candidate message `data + timestamp + nonce` of the first
variant (line 47), with JS left-to-right evaluation: numbers are
coerced to decimal strings and concatenated with no separator. -/
def combinedMsg (data : String) (timestamp nonce : Nat) : String :=
  (data ++ toString timestamp) ++ toString nonce

/-- The `while (true)` search loop of the first variant's `createBlock`
(lines 46-55), as a fueled recursion over the candidate nonce. -/
def mineGo (data : String) (timestamp startingZeros : Nat) :
    Nat → Nat → Option BlockRec
  | 0, _ => none
  | fuel + 1, nonce =>
    if hasLeadingZeroBits (sha256 (utf8Encode (combinedMsg data timestamp nonce)))
        startingZeros then
      some ⟨toHex (sha256 (utf8Encode (combinedMsg data timestamp nonce))),
        data, nonce, timestamp⟩
    else
      mineGo data timestamp startingZeros fuel (nonce + 1)

/-- `createBlock(data, startingZeros)` of the first variant (lines 41-57):
nonce starts at 0; `timestamp` is the `Date.now()` value captured once
before the loop; `fuel` bounds the embedded recursion. -/
def createBlock (data : String) (timestamp startingZeros fuel : Nat) :
    Option BlockRec :=
  mineGo data timestamp startingZeros fuel 0

/-- The hash recomputation and comparison of the first variant's
`verifyBlock` (lines 70-80), applied to a well-formed parsed record. -/
def verifyRecord (b : BlockRec) : Bool :=
  if toHex (sha256 (utf8Encode (combinedMsg b.data b.timestamp b.nonce))) = b.hash
  then true else false

/-- The block record of the second variant (lines 150-155): no timestamp. -/
structure BlockRec2 where
  hash : String
  data : String
  nonce : Nat
deriving Repr, DecidableEq

/-- The candidate message `data + nonce` of the second variant (line 140). -/
def combinedMsg2 (data : String) (nonce : Nat) : String :=
  data ++ toString nonce

/-- The search loop of the second variant's `createBlock` (lines 139-148). -/
def mineGo2 (data : String) (startingZeros : Nat) :
    Nat → Nat → Option BlockRec2
  | 0, _ => none
  | fuel + 1, nonce =>
    if hasLeadingZeroBits (sha256 (utf8Encode (combinedMsg2 data nonce)))
        startingZeros then
      some ⟨toHex (sha256 (utf8Encode (combinedMsg2 data nonce))), data, nonce⟩
    else
      mineGo2 data startingZeros fuel (nonce + 1)

/-- `createBlock(data, startingZeros)` of the second variant (lines 134-156). -/
def createBlock2 (data : String) (startingZeros fuel : Nat) :
    Option BlockRec2 :=
  mineGo2 data startingZeros fuel 0

/-- The hash recomputation and comparison of the second variant's
`verifyBlock` (lines 169-179), applied to a well-formed parsed record. -/
def verifyRecord2 (b : BlockRec2) : Bool :=
  if toHex (sha256 (utf8Encode (combinedMsg2 b.data b.nonce))) = b.hash
  then true else false

/-- The JavaScript values that can appear while `verifyBlock` rebuilds the
candidate message from a parsed JSON object: strings, (integer) numbers,
the number `NaN`, and `undefined` for an absent field. -/
inductive JVal where
  | vstr : String → JVal
  | vnum : Nat → JVal
  | vnan : JVal
  | vundefined : JVal
deriving Repr, DecidableEq

/-- JS ToString on the values above, as string concatenation coerces them. -/
def jvalToString : JVal → String
  | .vstr s => s
  | .vnum n => toString n
  | .vnan => "NaN"
  | .vundefined => "undefined"

/-- The JS `+` operator on `JVal`: string concatenation (with coercion)
when either side is a string, numeric addition on two numbers, and `NaN`
whenever `undefined` or `NaN` meets a numeric addition. -/
def jadd : JVal → JVal → JVal
  | .vstr a, b => .vstr (a ++ jvalToString b)
  | a, .vstr b => .vstr (jvalToString a ++ b)
  | .vnum a, .vnum b => .vnum (a + b)
  | _, _ => .vnan

/-- A string-typed JSON field after destructuring: absent means `undefined`. -/
def jOfStr : Option String → JVal
  | some s => .vstr s
  | none => .vundefined

/-- A number-typed JSON field after destructuring: absent means `undefined`. -/
def jOfNum : Option Nat → JVal
  | some n => .vnum n
  | none => .vundefined

/-- A parsed block object as `verifyBlock` destructures it: each field may
be absent.  (Fields present with the wrong JSON type are out of scope of
the embedding.) -/
structure JSBlock where
  hash : Option String
  data : Option String
  nonce : Option Nat
  timestamp : Option Nat
deriving Repr, DecidableEq

/-- `hash.update(x)`: accepts a string and digests it, throws a
`TypeError` on a number (including `NaN`) or `undefined`. -/
def hashUpdate : JVal → Except Unit (List Nat)
  | .vstr s => .ok (sha256 (utf8Encode s))
  | _ => .error ()

/-- `verifyBlock(filePath)` of the first variant (lines 66-85).  The
argument is the outcome of `fs.readFileSync` + `JSON.parse`: `none` when
reading or parsing throws (the `catch` path returns `false`), `some b`
otherwise.  A `TypeError` thrown by `hash.update` inside the `try` is
also caught and yields `false`.  The final `computedHash === hash`
comparison is `false` when the `hash` field is absent (a string is never
strictly equal to `undefined`). -/
def verifyBlockJS : Option JSBlock → Bool
  | none => false
  | some b =>
    match hashUpdate (jadd (jadd (jOfStr b.data) (jOfNum b.timestamp))
        (jOfNum b.nonce)) with
    | .error _ => false
    | .ok digest =>
      match b.hash with
      | none => false
      | some h => if toHex digest = h then true else false

/-- `JSON.stringify` then `JSON.parse` of a mined block (lines 95 and 68):
the persisted JSON document of a `BlockRec` parses back to an object with
all four fields present. -/
def persistRecord (b : BlockRec) : JSBlock :=
  ⟨some b.hash, some b.data, some b.nonce, some b.timestamp⟩

set_option maxRecDepth 100000 in
example : sha256 (utf8Encode "abc") =
    [0xba, 0x78, 0x16, 0xbf, 0x8f, 0x01, 0xcf, 0xea,
     0x41, 0x41, 0x40, 0xde, 0x5d, 0xae, 0x22, 0x23,
     0xb0, 0x03, 0x61, 0xa3, 0x96, 0x17, 0x7a, 0x9c,
     0xb4, 0x10, 0xff, 0x61, 0xf2, 0x00, 0x15, 0xad] := by decide

set_option maxRecDepth 100000 in
example : toHex (sha256 (utf8Encode "")) =
    "e3b0c44298fc1c149afbf4c8996fb92427ae41e4649b934ca495991b7852b855" := by
  decide

/-! ### Helper lemmas -/

/-- The loop of `hasLeadingZeroBits` computes whether `zeros` is reached by
the running count plus the initial zero run of the remaining bits. -/
theorem hlzbGo_eq_decide (zeros : Nat) (bits : List Nat) :
    ∀ count, hlzbGo zeros bits count = decide (zeros ≤ count + specZeroRun bits) := by
  induction bits with
  | nil => intro count; simp [hlzbGo, specZeroRun]
  | cons b rest ih =>
    intro count
    by_cases hb : b = 0
    · subst hb
      by_cases hz : zeros ≤ count + 1
      · have hz2 : zeros ≤ count + (specZeroRun rest + 1) := by omega
        simp [hlzbGo, specZeroRun, hz, hz2]
      · simp only [hlzbGo, specZeroRun, if_neg hz, if_pos trivial, ih,
          reduceCtorEq, reduceIte]
        rw [decide_eq_decide]
        omega
    · simp [hlzbGo, specZeroRun, hb]

/-- `hasLeadingZeroBits` decides `zeros ≤` the leading-zero count. -/
theorem hasLeadingZeroBits_eq_decide (d : List Nat) (z : Nat) :
    hasLeadingZeroBits d z = decide (z ≤ specLeadingZeroCount d) := by
  simp [hasLeadingZeroBits, specLeadingZeroCount, hlzbGo_eq_decide]

/-- The initial zero run is at most the list length. -/
theorem specZeroRun_le_length (l : List Nat) : specZeroRun l ≤ l.length := by
  induction l with
  | nil => simp [specZeroRun]
  | cons b rest ih =>
    by_cases hb : b = 0
    · simp only [specZeroRun, hb, if_pos trivial, List.length_cons, reduceIte]
      omega
    · simp [specZeroRun, hb]

/-- A digest of `n` bytes yields `8 * n` bits. -/
theorem length_flatMap_bitsOfByte (d : List Nat) :
    (d.flatMap bitsOfByte).length = 8 * d.length := by
  induction d with
  | nil => simp
  | cons b rest ih =>
    simp only [List.flatMap_cons, List.length_append, List.length_cons, ih, bitsOfByte,
      List.length_map, List.length_reverse, List.length_range]
    omega

/-- The leading-zero count never exceeds the digest's bit length. -/
theorem specLeadingZeroCount_le (d : List Nat) :
    specLeadingZeroCount d ≤ 8 * d.length := by
  have h := specZeroRun_le_length (d.flatMap bitsOfByte)
  rwa [length_flatMap_bitsOfByte] at h

/-- `hexDigit` is injective below 16. -/
theorem hexDigit_injOn : ∀ a, a < 16 → ∀ b, b < 16 → hexDigit a = hexDigit b → a = b := by
  decide

set_option maxRecDepth 100000 in
/-- The two hex digits of a byte are below 16. -/
theorem byte_shift_and_lt : ∀ b, b < 256 → b >>> 4 < 16 ∧ b &&& 15 < 16 := by
  decide

set_option maxRecDepth 100000 in
/-- A byte is recovered from its two hex digits. -/
theorem byte_decomp : ∀ b, b < 256 → 16 * (b >>> 4) + (b &&& 15) = b := by
  decide

/-- `toHex` is injective on byte lists. -/
theorem toHex_inj : ∀ (l1 l2 : List Nat), (∀ b ∈ l1, b < 256) → (∀ b ∈ l2, b < 256) →
    toHex l1 = toHex l2 → l1 = l2 := by
  intro l1
  induction l1 with
  | nil =>
    intro l2 _ _ h
    cases l2 with
    | nil => rfl
    | cons b t =>
      simp only [toHex] at h
      injection h with hd
      simp [List.flatMap_cons] at hd
  | cons a t ih =>
    intro l2 h1 h2 h
    cases l2 with
    | nil =>
      simp only [toHex] at h
      injection h with hd
      simp [List.flatMap_cons] at hd
    | cons b t2 =>
      simp only [toHex] at h
      injection h with hd
      simp only [List.flatMap_cons, List.cons_append, List.nil_append,
        List.cons.injEq] at hd
      obtain ⟨e1, e2, e3⟩ := hd
      have ha : a < 256 := h1 a (by simp)
      have hb : b < 256 := h2 b (by simp)
      have hab : a = b := by
        have d1 := hexDigit_injOn _ (byte_shift_and_lt a ha).1 _ (byte_shift_and_lt b hb).1 e1
        have d2 := hexDigit_injOn _ (byte_shift_and_lt a ha).2 _ (byte_shift_and_lt b hb).2 e2
        have ka := byte_decomp a ha
        have kb := byte_decomp b hb
        omega
      subst hab
      have ht : toHex t = toHex t2 := congrArg String.mk e3
      rw [ih t2 (fun x hx => h1 x (by simp [hx])) (fun x hx => h2 x (by simp [hx])) ht]

/-- Big-endian bytes are below 256. -/
theorem beBytes_lt : ∀ k n b, b ∈ beBytes k n → b < 256 := by
  intro k
  induction k with
  | zero => intro n b hb; simp [beBytes] at hb
  | succ k ih =>
    intro n b hb
    simp only [beBytes, List.mem_cons] at hb
    rcases hb with rfl | hb
    · have h255 : (n >>> (8 * k)) &&& 255 ≤ 255 := Nat.and_le_right
      omega
    · exact ih n b hb

/-- Every byte of a SHA-256 digest is below 256. -/
theorem sha256_lt (msg : List Nat) : ∀ b ∈ sha256 msg, b < 256 := by
  intro b hb
  simp only [sha256, List.mem_flatMap] at hb
  obtain ⟨w, _, hw⟩ := hb
  exact beBytes_lt 4 w b hw

/-- Operational characterization of the search loop: a successful run
returns the least satisfying nonce at or above the starting one, with the
hash and the other fields determined by it. -/
theorem mineGo_spec (data : String) (ts zeros : Nat) :
    ∀ (fuel n0 : Nat) (r : BlockRec), mineGo data ts zeros fuel n0 = some r →
      n0 ≤ r.nonce
      ∧ hasLeadingZeroBits (sha256 (utf8Encode (combinedMsg data ts r.nonce))) zeros = true
      ∧ (∀ m, n0 ≤ m → m < r.nonce →
          hasLeadingZeroBits (sha256 (utf8Encode (combinedMsg data ts m))) zeros = false)
      ∧ r.hash = toHex (sha256 (utf8Encode (combinedMsg data ts r.nonce)))
      ∧ r.data = data ∧ r.timestamp = ts := by
  intro fuel
  induction fuel with
  | zero => intro n0 r h; simp [mineGo] at h
  | succ k ih =>
    intro n0 r h
    simp only [mineGo] at h
    split at h
    · next hc =>
      injection h with h
      subst h
      refine ⟨Nat.le_refl _, hc, ?_, rfl, rfl, rfl⟩
      intro m hm1 hm2
      simp at hm2
      omega
    · next hc =>
      have hc' : hasLeadingZeroBits
          (sha256 (utf8Encode (combinedMsg data ts n0))) zeros = false := by
        revert hc
        cases hasLeadingZeroBits (sha256 (utf8Encode (combinedMsg data ts n0))) zeros <;> simp
      obtain ⟨h1, h2, h3, h4, h5, h6⟩ := ih (n0 + 1) r h
      refine ⟨by omega, h2, ?_, h4, h5, h6⟩
      intro m hm1 hm2
      by_cases hm : m = n0
      · subst hm; exact hc'
      · exact h3 m (by omega) hm2

/-- Completeness of the search loop: if some nonce within reach satisfies
the predicate, the loop succeeds (the JS `while (true)` terminates). -/
theorem mineGo_complete (data : String) (ts zeros : Nat) :
    ∀ (fuel n0 : Nat),
      (∃ m, n0 ≤ m ∧ m < n0 + fuel ∧
        hasLeadingZeroBits (sha256 (utf8Encode (combinedMsg data ts m))) zeros = true) →
      ∃ r, mineGo data ts zeros fuel n0 = some r := by
  intro fuel
  induction fuel with
  | zero =>
    intro n0 hex
    obtain ⟨m, h1, h2, _⟩ := hex
    omega
  | succ k ih =>
    intro n0 hex
    obtain ⟨m, h1, h2, h3⟩ := hex
    simp only [mineGo]
    split
    · exact ⟨_, rfl⟩
    · next hc =>
      apply ih (n0 + 1)
      refine ⟨m, ?_, by omega, h3⟩
      rcases Nat.eq_or_lt_of_le h1 with heq | hlt
      · exact absurd (heq ▸ h3) hc
      · omega

/-! ### The claims -/

/-- Claim C1: for every data string and every achievable number of leading
zero bits, mining a record with `createBlock`, persisting it as JSON and
re-verifying the parsed document with `verifyBlock` returns `true`.
Achievability is expressed operationally: the fueled search returned a
record, which happens exactly when some nonce within the fuel satisfies
the predicate (`mineGo_complete`). -/
theorem createBlock_persist_verifyBlock_roundtrip (data : String)
    (ts zeros fuel : Nat) (r : BlockRec)
    (h : createBlock data ts zeros fuel = some r) :
    verifyBlockJS (some (persistRecord r)) = true := by
  obtain ⟨-, -, -, h4, h5, h6⟩ := mineGo_spec data ts zeros fuel 0 r h
  simp only [verifyBlockJS, persistRecord, jOfStr, jOfNum, jadd, jvalToString,
    hashUpdate]
  have h4' : toHex (sha256 (utf8Encode ((r.data ++ toString r.timestamp)
      ++ toString r.nonce))) = r.hash := by
    rw [h4, h5, h6]; rfl
  rw [h4']
  simp

/-- Witness for C1 at `data := "b"`, `timestamp := 0`, `startingZeros := 1`:
the miner returns nonce 2, and the persisted record verifies. -/
theorem createBlock_persist_verifyBlock_roundtrip_witness :
    createBlock "b" 0 1 50 = some
      ⟨"451703bf77d1bcb0a5f08605a55e86a82676e0d989fcb10b9105e357b71fa78b", "b", 2, 0⟩
    ∧ verifyBlockJS (some (persistRecord
      ⟨"451703bf77d1bcb0a5f08605a55e86a82676e0d989fcb10b9105e357b71fa78b", "b", 2, 0⟩))
      = true :=
  have h : createBlock "b" 0 1 50 = some
      ⟨"451703bf77d1bcb0a5f08605a55e86a82676e0d989fcb10b9105e357b71fa78b", "b", 2, 0⟩ := by
    decide
  ⟨h, createBlock_persist_verifyBlock_roundtrip "b" 0 1 50 _ h⟩

/-- Claim C2: `hasLeadingZeroBits digest zeros` returns `true` iff the
count of consecutive zero bits from the most significant bit of the first
byte onward is at least `zeros`; that count never exceeds the digest's
bit length `8 * length`, so a `zeros` above it can never be satisfied. -/
theorem hasLeadingZeroBits_iff_leadingZeroCount (d : List Nat) (z : Nat) :
    (hasLeadingZeroBits d z = true ↔ z ≤ specLeadingZeroCount d)
    ∧ specLeadingZeroCount d ≤ 8 * d.length := by
  refine ⟨?_, specLeadingZeroCount_le d⟩
  rw [hasLeadingZeroBits_eq_decide]
  exact decide_eq_true_iff

/-- Claim C3: a successful `createBlock` run starts the nonce at 0,
increments by one per failed attempt, and returns the least nonce whose
candidate message `data + timestamp + nonce` hashes below the difficulty,
with the `hash` field the lowercase hex of that digest and the other
fields the inputs. -/
theorem createBlock_finds_least_nonce (data : String) (ts zeros fuel : Nat)
    (r : BlockRec) (h : createBlock data ts zeros fuel = some r) :
    hasLeadingZeroBits (sha256 (utf8Encode (combinedMsg data ts r.nonce))) zeros = true
    ∧ (∀ m, m < r.nonce →
        hasLeadingZeroBits (sha256 (utf8Encode (combinedMsg data ts m))) zeros = false)
    ∧ r.hash = toHex (sha256 (utf8Encode (combinedMsg data ts r.nonce)))
    ∧ r.data = data ∧ r.timestamp = ts := by
  obtain ⟨h1, h2, h3, h4, h5, h6⟩ := mineGo_spec data ts zeros fuel 0 r h
  exact ⟨h2, fun m hm => h3 m (Nat.zero_le m) hm, h4, h5, h6⟩

/-- Witness for C3 at `data := "b"`, `timestamp := 0`, `startingZeros := 1`:
nonce 2 is returned, it satisfies the predicate, and nonces 0 and 1 fail. -/
theorem createBlock_finds_least_nonce_witness :
    createBlock "b" 0 1 50 = some
      ⟨"451703bf77d1bcb0a5f08605a55e86a82676e0d989fcb10b9105e357b71fa78b", "b", 2, 0⟩
    ∧ hasLeadingZeroBits (sha256 (utf8Encode (combinedMsg "b" 0 2))) 1 = true
    ∧ hasLeadingZeroBits (sha256 (utf8Encode (combinedMsg "b" 0 0))) 1 = false
    ∧ hasLeadingZeroBits (sha256 (utf8Encode (combinedMsg "b" 0 1))) 1 = false :=
  have h : createBlock "b" 0 1 50 = some
      ⟨"451703bf77d1bcb0a5f08605a55e86a82676e0d989fcb10b9105e357b71fa78b", "b", 2, 0⟩ := by
    decide
  have hs := createBlock_finds_least_nonce "b" 0 1 50 _ h
  ⟨h, hs.1, hs.2.1 0 (by decide), hs.2.1 1 (by decide)⟩

/-- Claim C4 is refuted at the two-byte digest `0x00 0x80`: it has exactly
8 leading zero bits, so `hasLeadingZeroBits(digest, 9)` is `false`, not
`true` as the claim states. -/
theorem hasLeadingZeroBits_00_80_nine_refuted :
    hasLeadingZeroBits [0, 128] 9 = false := by decide

/-- Claim C4 as amended: for every digest whose first byte is `0x00` and
second byte is `0x80` (8 leading zero bits), `hasLeadingZeroBits` returns
`false` at 9 and `false` at 10. -/
theorem hasLeadingZeroBits_00_80_amended (rest : List Nat) :
    hasLeadingZeroBits (0 :: 128 :: rest) 9 = false
    ∧ hasLeadingZeroBits (0 :: 128 :: rest) 10 = false :=
  ⟨rfl, rfl⟩

/-- Claim C5: mutating any single field of a valid record (`data`,
`nonce`, or the stored `hash`) to a different value makes `verifyBlock`
return `false`.  For the `hash` field this is unconditional; for `data`
and `nonce` it holds whenever the mutated candidate message's SHA-256
digest differs from the original's (the collision-freeness instance that
SHA-256 provides in practice, checked concretely in the witness). -/
theorem verifyBlock_tamper_detection (b : BlockRec) (d2 : String)
    (n2 : Nat) (k2 : String)
    (hvalid : b.hash = toHex (sha256 (utf8Encode (combinedMsg b.data b.timestamp b.nonce))))
    (hd : d2 ≠ b.data) (hn : n2 ≠ b.nonce) (hk : k2 ≠ b.hash)
    (hcd : sha256 (utf8Encode (combinedMsg d2 b.timestamp b.nonce))
      ≠ sha256 (utf8Encode (combinedMsg b.data b.timestamp b.nonce)))
    (hcn : sha256 (utf8Encode (combinedMsg b.data b.timestamp n2))
      ≠ sha256 (utf8Encode (combinedMsg b.data b.timestamp b.nonce))) :
    verifyRecord { b with data := d2 } = false
    ∧ verifyRecord { b with nonce := n2 } = false
    ∧ verifyRecord { b with hash := k2 } = false := by
  obtain ⟨bh, bd, bn, bt⟩ := b
  simp only at hvalid hcd hcn hk
  refine ⟨?_, ?_, ?_⟩
  · simp only [verifyRecord]
    rw [if_neg]
    intro heq
    rw [hvalid] at heq
    exact hcd (toHex_inj _ _ (sha256_lt _) (sha256_lt _) heq)
  · simp only [verifyRecord]
    rw [if_neg]
    intro heq
    rw [hvalid] at heq
    exact hcn (toHex_inj _ _ (sha256_lt _) (sha256_lt _) heq)
  · simp only [verifyRecord]
    rw [if_neg]
    intro heq
    exact hk (hvalid.trans heq).symm

set_option maxRecDepth 1000000 in
/-- Witness for C5: the valid record for `data := "a"`, `timestamp := 0`,
`nonce := 0` rejects a mutated `data`, a mutated `nonce`, and a mutated
stored `hash`. -/
theorem verifyBlock_tamper_detection_witness :
    verifyRecord
      ⟨"27a179a88f7d9b6f887c0e99218e3cf91e6788616f993ba923c3d82a75553786", "b", 0, 0⟩
      = false
    ∧ verifyRecord
      ⟨"27a179a88f7d9b6f887c0e99218e3cf91e6788616f993ba923c3d82a75553786", "a", 1, 0⟩
      = false
    ∧ verifyRecord ⟨"", "a", 0, 0⟩ = false :=
  verifyBlock_tamper_detection
    ⟨"27a179a88f7d9b6f887c0e99218e3cf91e6788616f993ba923c3d82a75553786", "a", 0, 0⟩
    "b" 1 "" (by decide) (by decide) (by decide) (by decide) (by decide) (by decide)

/-- Claim C6: when the persisted file cannot be read or parsed, the
`try/catch` in `verifyBlock` yields the definite value `false`; in the
embedding every load or parse failure is the `none` input, and
`verifyBlockJS` is a total function, so no fault propagates. -/
theorem verifyBlock_load_failure_false : verifyBlockJS none = false := rfl

/-- Claim C7: zero required leading zero bits is trivially satisfied, for
every digest including the empty one. -/
theorem hasLeadingZeroBits_zero_always_true (d : List Nat) :
    hasLeadingZeroBits d 0 = true := by
  rw [hasLeadingZeroBits_eq_decide]
  simp

set_option maxRecDepth 1000000 in
/-- Claim C8 is refuted: a parseable record with `data := "a"`,
`timestamp := 0`, no `nonce` field, and stored hash equal to
SHA-256 of the string `"a0undefined"` (JS concatenates the text
`undefined` for the missing field) is accepted by `verifyBlock`, not
rejected. -/
theorem verifyBlock_missing_nonce_accepts :
    verifyBlockJS (some
      ⟨some "52519d671b89902859c9b72683fa0f0393dd2f1cb24716f6c22cb7d0d773624b",
       some "a", none, some 0⟩) = true := by decide

/-- Claim C8 as amended: a parseable record missing the `hash` field or
the `data` field always verifies `false` (a missing `data` makes the
candidate message the number `NaN`, `hash.update` throws, and the
`catch` returns `false`; a missing `hash` never equals the computed hex
string), and no case raises to the caller; but a record missing only
`nonce` is hashed with the text `undefined` in its place and may verify
`true`, as the counterexample shows. -/
theorem verifyBlock_missing_hash_or_data_false (b : JSBlock)
    (hmiss : b.hash = none ∨ b.data = none) :
    verifyBlockJS (some b) = false := by
  obtain ⟨bh, bd, bn, bt⟩ := b
  simp only at hmiss
  rcases hmiss with h | h
  · subst h
    cases bd with
    | none => cases bn <;> cases bt <;> rfl
    | some s => cases bn <;> cases bt <;> rfl
  · subst h
    cases bh <;> cases bn <;> cases bt <;> rfl

/-- Witness for the amended C8: a record with no `hash` field verifies
`false`. -/
theorem verifyBlock_missing_hash_or_data_false_witness :
    verifyBlockJS (some ⟨none, some "a", some 0, some 0⟩) = false :=
  verifyBlock_missing_hash_or_data_false ⟨none, some "a", some 0, some 0⟩ (Or.inl rfl)

set_option maxRecDepth 1000000 in
/-- Claim C9: the candidate message construction is not injective: the
record mined as `data := "b"`, `nonce := 10` (at difficulty 4) and the
forged record `data := "b1"`, `nonce := 0` build the identical message
`"b10"`, so the forged record — both of whose fields differ from the
mined one's — also verifies. -/
theorem combined_message_not_injective :
    createBlock2 "b" 4 300 = some
      ⟨"087f4c7109d76636536c712c5121252018fa2dd0fddeba804f1df78494d8ea01", "b", 10⟩
    ∧ combinedMsg2 "b1" 0 = combinedMsg2 "b" 10
    ∧ "b1" ≠ "b" ∧ (0 : Nat) ≠ 10
    ∧ verifyRecord2
      ⟨"087f4c7109d76636536c712c5121252018fa2dd0fddeba804f1df78494d8ea01", "b1", 0⟩
      = true :=
  ⟨by decide, by decide, by decide, by decide, by decide⟩

/-- Claim C10: `verifyBlock` checks only hash equality and never the
difficulty predicate: every record whose stored hash matches the
recomputation verifies, regardless of how few leading zero bits the
digest has (the witness verifies a record whose digest has none). -/
theorem verifyBlock_ignores_difficulty (b : BlockRec)
    (hvalid : b.hash = toHex (sha256 (utf8Encode (combinedMsg b.data b.timestamp b.nonce)))) :
    verifyRecord b = true := by
  simp only [verifyRecord]
  rw [if_pos hvalid.symm]

/-- Witness for C10: a record whose digest starts with a one bit (zero
leading zero bits) still verifies `true`. -/
theorem verifyBlock_ignores_difficulty_witness :
    hasLeadingZeroBits (sha256 (utf8Encode (combinedMsg "a" 0 1))) 1 = false
    ∧ verifyRecord
      ⟨"f1a8d12f9541cb620869b8fb403559132ded003d229eed08c9dc7f0ba62bb79c", "a", 1, 0⟩
      = true :=
  ⟨by decide,
   verifyBlock_ignores_difficulty
     ⟨"f1a8d12f9541cb620869b8fb403559132ded003d229eed08c9dc7f0ba62bb79c", "a", 1, 0⟩
     (by decide)⟩
